import Mathlib

/-!
Verification of the Car-Inventory-Scraper normalization and aggregation
pipeline against its natural-language specification.

The definitions below are shallow embeddings of the Python source:

* `parse_price`, `safe_int`, `normalize_pkg_name`, `EXCLUDED_PACKAGES`
  embed `src/car_inventory_scraper/parsing_helpers.py`;
* `dealeron_classify`, `dealeron_total_price`, `dealeron_adjustments`
  embed the package/pricing logic of `spiders/dealeron.py`;
* `dealercom_total_price`, `dealercom_adjustments`,
  `dealercom_dealer_accessories` embed `spiders/dealercom.py`;
* `dealervenom_total_price`, `dealervenom_adjustments` embed
  `spiders/dealervenom.py`;
* `aggStep`, `aggRun` embed the class-level collector state machine of
  `HtmlReportPipeline` in `pipelines.py` (`process_item`, `close_spider`);
* `sortReport` embeds the sort in `HtmlReportPipeline._write_report` and
  `tools/build_report.py` (both sort with the same key).

Python truthiness on int-or-None values is modelled explicitly by
`pyTruthy` (`None` and `0` are falsy), so `x or y` and `if not x` are
translated faithfully.  String helpers are modelled over the ASCII range,
which covers every string constant the matching logic uses.

Definitions whose name starts with `spec_` are NOT taken from the code:
they transcribe the wording of the specification and exist only to be
compared with the code-derived definitions.
-/

/-! ### String helpers (ASCII models of Python str methods) -/

/-- `isSpaceChar c` models membership in the set Python `str.strip()`
removes (ASCII whitespace). -/
def isSpaceChar (c : Char) : Bool := c.isWhitespace

/-- Python `str.strip()` on a list of characters. -/
def stripChars (l : List Char) : List Char :=
  ((l.dropWhile isSpaceChar).reverse.dropWhile isSpaceChar).reverse

/-- Python `str.strip()`. -/
def pyStrip (s : String) : String := ⟨stripChars s.data⟩

/-- Python `str.rstrip(c)` for a single character: removes every trailing
occurrence of `c`. -/
def rstripAll (c : Char) (l : List Char) : List Char :=
  (l.reverse.dropWhile (fun x => x == c)).reverse

/-- ASCII uppercasing of one character, as Python `str.upper()` does on
ASCII letters. -/
def asciiUpperChar (c : Char) : Char :=
  if 'a' ≤ c ∧ c ≤ 'z' then Char.ofNat (c.toNat - 32) else c

/-- Python `str.upper()` (ASCII range). -/
def pyUpper (s : String) : String := ⟨s.data.map asciiUpperChar⟩

/-- ASCII lowercasing of one character. -/
def asciiLowerChar (c : Char) : Char :=
  if 'A' ≤ c ∧ c ≤ 'Z' then Char.ofNat (c.toNat + 32) else c

/-- Python `str.lower()` (ASCII range). -/
def pyLower (s : String) : String := ⟨s.data.map asciiLowerChar⟩

/-- `True` when the string ends in a period character. -/
def endsInPeriod (s : String) : Bool :=
  match s.data.getLast? with
  | some c => c == '.'
  | none => false

/-! ### Python truthiness for optional numbers -/

/-- Python truthiness of an int-or-None value: `None` and `0` are falsy. -/
def pyTruthy : Option Nat → Bool
  | none => false
  | some n => n != 0

/-- Python `a or b` on int-or-None values. -/
def pyOr (a b : Option Nat) : Option Nat := if pyTruthy a then a else b

/-- Python truthiness of a signed int-or-None value. -/
def pyTruthyInt : Option Int → Bool
  | none => false
  | some n => n != 0

/-! ### parsing_helpers.py -/

/-- Accumulate a list of decimal digit characters into a number, as
`int(digits)` does. -/
def digitsToNat (l : List Char) : Nat :=
  l.foldl (fun n c => n * 10 + (c.toNat - 48)) 0

/-- `parse_price` from `parsing_helpers.py`: extract the integer from a
price string (for example `$48,714`); `None` for falsy input, for strings
without digits, and for a zero value. -/
def parse_price (s : Option String) : Option Nat :=
  match s with
  | none => none
  | some str =>
    if str = "" then none
    else
      let digits := str.data.filter Char.isDigit
      if digits = [] then none
      else if digitsToNat digits = 0 then none
      else some (digitsToNat digits)

/-- `safe_int` from `parsing_helpers.py`, restricted to the integer input
shape (the shape the DealerVenom `data-vehicle` JSON provides): `int(val)`
returns the value itself, and a zero result becomes `None`. -/
def safe_int (v : Option Int) : Option Int :=
  match v with
  | none => none
  | some n => if n = 0 then none else some n

/-- `normalize_pkg_name` from `parsing_helpers.py`:
`name.strip().rstrip(".")`. -/
def normalize_pkg_name (s : String) : String :=
  ⟨rstripAll '.' (pyStrip s).data⟩

/-- `EXCLUDED_PACKAGES` from `parsing_helpers.py` (a frozenset with one
lowercase member). -/
def EXCLUDED_PACKAGES : List String := ["50 state emissions"]

/-! ### Package entries and the DealerOn classifier -/

/-- A `{name, price}` package entry as the spiders build it
(`price_str or None`). -/
structure PkgEntry where
  name : String
  price : Option String
deriving DecidableEq, Repr

/-- `_DEALER_ACCESSORY_NAMES` from `spiders/dealeron.py`. -/
def dealeron_DEALER_ACCESSORY_NAMES : List String :=
  ["360shield -paintshield and interiorshield",
   "z360shield -paintshield and interiorshield"]

/-- `_is_dealer_accessory` from `spiders/dealeron.py`:
`normalize_pkg_name(name).lower() in _DEALER_ACCESSORY_NAMES`. -/
def dealeron_is_dealer_accessory (name : String) : Bool :=
  dealeron_DEALER_ACCESSORY_NAMES.contains (pyLower (normalize_pkg_name name))

/-- The `.package-info` loop of `DealerOnSpider.parse_detail`: each raw
`(name, price)` pair of css texts is stripped; entries with an empty name
or whose UPPERCASED name is in `EXCLUDED_PACKAGES` are skipped; the rest
go to the accessory list when `_is_dealer_accessory` matches, otherwise
to the factory-package list. -/
def dealeron_classify (raw : List (String × String)) :
    List PkgEntry × List PkgEntry :=
  raw.foldl
    (fun acc np =>
      let pkg_name := pyStrip np.1
      let price_str := pyStrip np.2
      if pkg_name = "" ∨ EXCLUDED_PACKAGES.contains (pyUpper pkg_name) then
        acc
      else
        let entry : PkgEntry :=
          ⟨pkg_name, if price_str = "" then none else some price_str⟩
        if dealeron_is_dealer_accessory pkg_name then
          (acc.1, acc.2 ++ [entry])
        else
          (acc.1 ++ [entry], acc.2))
    ([], [])

/-! ### total_packages_price (dealeron.py lines 235-238, dealercom.py
lines 262-265, identical code) -/

/-- The generator-sum `sum(parse_price(p.get("price")) or 0 for p in
packages)`. -/
def sumPkgPrices (pkgs : List PkgEntry) : Nat :=
  (pkgs.map (fun p => (parse_price p.price).getD 0)).sum

/-- `item["total_packages_price"] = total_packages_price or None`. -/
def total_packages_price (pkgs : List PkgEntry) : Option Nat :=
  if sumPkgPrices pkgs = 0 then none else some (sumPkgPrices pkgs)

/-- Modelled from the spec words for comparison: the sum of the present
(parsed) package prices, absent prices contributing nothing. -/
def spec_presentPriceSum (pkgs : List PkgEntry) : Nat :=
  (pkgs.filterMap (fun p => parse_price p.price)).sum

/-! ### DealerOn pricing (spiders/dealeron.py lines 241-252) -/

/-- `total_price = parse_price(price_stack.get("PRICE"))`, then
`if not total_price: total_price = parse_price(data-price)`, then
`item["total_price"] = total_price if total_price else msrp`. -/
def dealeron_total_price (stackRaw dataRaw : Option String)
    (msrp : Option Nat) : Option Nat :=
  let tp := parse_price stackRaw
  let tp2 := if pyTruthy tp then tp else parse_price dataRaw
  if pyTruthy tp2 then tp2 else msrp

/-- The adjustments block of `DealerOnSpider.parse_detail`:
`if msrp and total_price and total_price != msrp: adj = total_price -
msrp - dealer_acc_total; item["adjustments"] = adj if adj else None`. -/
def dealeron_adjustments (msrp tp : Option Nat) (dealer_acc_total : Nat) :
    Option Int :=
  match msrp, tp with
  | some m, some t =>
    if m ≠ 0 ∧ t ≠ 0 ∧ t ≠ m then
      if (t : Int) - m - dealer_acc_total = 0 then none
      else some ((t : Int) - m - dealer_acc_total)
    else none
  | _, _ => none

/-! ### Dealer.com pricing (spiders/dealercom.py lines 267-292) -/

/-- `dealer_acc = dprice_dealer_acc or dealer_acc_from_pkgs or None`,
where `dealer_acc_from_pkgs` is the plain integer sum over the packages
identified as dealer accessories. -/
def dealercom_dealer_accessories (dpriceAcc : Option Nat)
    (accPkgs : List PkgEntry) : Option Nat :=
  let fromPkgs := sumPkgPrices accPkgs
  if pyTruthy dpriceAcc then dpriceAcc
  else if fromPkgs ≠ 0 then some fromPkgs
  else none

/-- `total_price = dprice_map.get("Advertised Price", {}).get("value")`,
then `if not total_price: total_price = json_ld_price(json_ld)`, then
`item["total_price"] = total_price if total_price else msrp`. -/
def dealercom_total_price (advValue jsonLdPrice msrp : Option Nat) :
    Option Nat :=
  let tp := advValue
  let tp2 := if pyTruthy tp then tp else jsonLdPrice
  if pyTruthy tp2 then tp2 else msrp

/-- The adjustments block of `DealerComSpider.parse_detail`: a truthy
`Dealer Adjustment` dprice entry with `isDiscount` set yields its
negation; otherwise `total_price - msrp` is recorded only when both are
truthy and `total_price < msrp`; otherwise absent. -/
def dealercom_adjustments (adjValue : Option Nat) (adjIsDiscount : Bool)
    (msrp tp : Option Nat) : Option Int :=
  if pyTruthy adjValue && adjIsDiscount then
    some (-(adjValue.getD 0 : Int))
  else
    match msrp, tp with
    | some m, some t =>
      if m ≠ 0 ∧ t ≠ 0 ∧ t < m then some ((t : Int) - m) else none
    | _, _ => none

/-! ### DealerVenom pricing (spiders/dealervenom.py lines 241-256) -/

/-- `displayed_price = safe_int(vehicle_data.get("displayedPrice"))`,
then `if not displayed_price: displayed_price =
parse_price(.buy-price text)`. -/
def dealervenom_displayed_price (displayedPrice : Option Int)
    (buyText : String) : Option Int :=
  let dp := safe_int displayedPrice
  if pyTruthyInt dp then dp else (parse_price (some buyText)).map Int.ofNat

/-- `item["total_price"] = displayed_price if displayed_price else msrp`. -/
def dealervenom_total_price (displayedPrice : Option Int)
    (buyText : String) (msrp : Option Int) : Option Int :=
  let dp := dealervenom_displayed_price displayedPrice buyText
  if pyTruthyInt dp then dp else msrp

/-- The adjustments block of `DealerVenomSpider.parse_detail`:
`if msrp and total_price and total_price != msrp:
item["adjustments"] = total_price - msrp`. -/
def dealervenom_adjustments (msrp tp : Option Int) : Option Int :=
  match msrp, tp with
  | some m, some t => if m ≠ 0 ∧ t ≠ 0 ∧ t ≠ m then some (t - m) else none
  | _, _ => none

/-! ### Report serializer (pipelines.py `_write_report`,
tools/build_report.py `build_report`)

Both sites sort the record list with
`items.sort(key=lambda it: (it.get("total_price") is None,
it.get("total_price") or 0))` — a stable ascending sort on the pair
(price-is-absent, price-or-zero).  Python list.sort and
`List.insertionSort` with the same total preorder are both stable sorts,
hence produce the same output list. -/

/-- A record as the serializer sees it (only the fields the sort key and
the VIN column read). -/
structure ReportItem where
  vin : Option String
  total_price : Option Nat
  packages : List PkgEntry
deriving DecidableEq, Repr

/-- First component of the Python sort key:
`it.get("total_price") is None` (False sorts before True). -/
def reportKeyNone (r : ReportItem) : Nat :=
  if r.total_price = none then 1 else 0

/-- Second component of the Python sort key: `it.get("total_price") or 0`. -/
def reportKeyVal (r : ReportItem) : Nat := (r.total_price).getD 0

/-- Lexicographic order on the Python sort key pair. -/
def reportLE (a b : ReportItem) : Prop :=
  reportKeyNone a < reportKeyNone b ∨
    (reportKeyNone a = reportKeyNone b ∧ reportKeyVal a ≤ reportKeyVal b)

instance : DecidableRel reportLE := fun a b => by
  unfold reportLE
  exact inferInstance

instance : IsTotal ReportItem reportLE :=
  ⟨fun a b => by unfold reportLE; omega⟩

instance : IsTrans ReportItem reportLE :=
  ⟨fun a b c hab hbc => by unfold reportLE at *; omega⟩

/-- The serializer ordering: the stable ascending sort on
(price-is-absent, price-or-zero) performed by `_write_report` and
`build_report`. -/
def sortReport (items : List ReportItem) : List ReportItem :=
  List.insertionSort reportLE items

/-- Lexicographic at-most comparison of character lists (plain string
ordering, used only by the spec-side VIN order below). -/
def strLEb : List Char → List Char → Bool
  | [], _ => true
  | _ :: _, [] => false
  | a :: as, b :: bs => if a = b then strLEb as bs else decide (a < b)

/-- Modelled from the spec words for comparison: VIN comparison, an
absent VIN sorting last. -/
def spec_vinLE (a b : ReportItem) : Bool :=
  match a.vin, b.vin with
  | some x, some y => strLEb x.data y.data
  | some _, none => true
  | none, none => true
  | none, some _ => false

/-- Modelled from the spec words for comparison: the sequence is sorted
by VIN ascending with absent VINs last. -/
def spec_vin_sorted : List ReportItem → Bool
  | [] => true
  | [_] => true
  | a :: b :: t => spec_vinLE a b && spec_vin_sorted (b :: t)

/-! ### Collector/Aggregator (pipelines.py `HtmlReportPipeline`)

The pipeline keeps class-level shared state: `_all_items` (the appended
records), `_completed_count`, and `_total_expected` (registered once via
`from_crawler` from the `TOTAL_SPIDER_COUNT` setting).  `process_item`
appends; `close_spider` increments the counter, logs progress while the
counter is below the registered total, and otherwise takes the item
list, resets both fields, and then either logs that nothing was scraped
or hands the list to `_write_report`. -/

/-- One operation arriving at the shared pipeline state: a record append
(`process_item`) or a task-completion signal (`close_spider`). -/
inductive AggOp (α : Type) where
  | append (r : α)
  | complete
deriving DecidableEq, Repr

/-- The class-level shared state of `HtmlReportPipeline`. -/
structure AggState (α : Type) where
  items : List α
  completed : Nat
  total : Nat
deriving DecidableEq, Repr

/-- The observable effects of `close_spider`: a progress log line, the
no-items log line, or the handoff of the accumulated records to
`_write_report`.  These are the only effects the method produces. -/
inductive AggEvent (α : Type) where
  | progress
  | noItems
  | report (items : List α)
deriving DecidableEq, Repr

/-- Registration: the state right after `from_crawler` stored the
expected task count (empty list, zero counter). -/
def aggInit {α : Type} (total : Nat) : AggState α := ⟨[], 0, total⟩

/-- One step of the shared state: `process_item` appends a copy of the
item; `close_spider` increments the counter, returns early with a
progress log while below the registered total, and otherwise resets the
state and emits either the no-items note or the report handoff. -/
def aggStep {α : Type} (s : AggState α) : AggOp α → AggState α × List (AggEvent α)
  | .append r => (⟨s.items ++ [r], s.completed, s.total⟩, [])
  | .complete =>
    if s.completed + 1 < s.total then
      (⟨s.items, s.completed + 1, s.total⟩, [AggEvent.progress])
    else
      (⟨[], 0, s.total⟩,
       match s.items with
       | [] => [AggEvent.noItems]
       | its => [AggEvent.report its])

/-- Run a sequence of operations against the shared state, collecting
emitted events in order. -/
def aggRun {α : Type} (s : AggState α) : List (AggOp α) → AggState α × List (AggEvent α)
  | [] => (s, [])
  | op :: ops =>
    ((aggRun (aggStep s op).1 ops).1, (aggStep s op).2 ++ (aggRun (aggStep s op).1 ops).2)

/-- The records appended by a trace, in order. -/
def appendsOf {α : Type} : List (AggOp α) → List α
  | [] => []
  | .append r :: ops => r :: appendsOf ops
  | .complete :: ops => appendsOf ops

/-- The number of append operations in a trace. -/
def appendCount {α : Type} : List (AggOp α) → Nat
  | [] => 0
  | .append _ :: ops => appendCount ops + 1
  | .complete :: ops => appendCount ops

/-- The number of completion signals in a trace. -/
def completesOf {α : Type} : List (AggOp α) → Nat
  | [] => 0
  | .append _ :: ops => completesOf ops
  | .complete :: ops => completesOf ops + 1

/-- The number of finalize events (no-items note or report handoff) in
an event log. -/
def finalizeCount {α : Type} : List (AggEvent α) → Nat
  | [] => 0
  | .progress :: es => finalizeCount es
  | .noItems :: es => finalizeCount es + 1
  | .report _ :: es => finalizeCount es + 1

/-- The number of report handoffs (output payloads) in an event log. -/
def reportCount {α : Type} : List (AggEvent α) → Nat
  | [] => 0
  | .report _ :: es => reportCount es + 1
  | .progress :: es => reportCount es
  | .noItems :: es => reportCount es

/-- The number of no-items diagnostic notes in an event log. -/
def noItemsCount {α : Type} : List (AggEvent α) → Nat
  | [] => 0
  | .noItems :: es => noItemsCount es + 1
  | .progress :: es => noItemsCount es
  | .report _ :: es => noItemsCount es

/-- All records handed to the serializer across an event log. -/
def finalizedItems {α : Type} : List (AggEvent α) → List α
  | [] => []
  | .report its :: es => its ++ finalizedItems es
  | .progress :: es => finalizedItems es
  | .noItems :: es => finalizedItems es

theorem aggRun_nil {α : Type} (s : AggState α) : aggRun s [] = (s, []) := rfl

theorem aggRun_append_list {α : Type} (l₁ l₂ : List (AggOp α)) : ∀ s : AggState α,
    aggRun s (l₁ ++ l₂) =
      ((aggRun (aggRun s l₁).1 l₂).1, (aggRun s l₁).2 ++ (aggRun (aggRun s l₁).1 l₂).2) := by
  induction l₁ with
  | nil => intro s; simp [aggRun]
  | cons op ops ih =>
    intro s
    simp only [List.cons_append, aggRun, List.append_eq, ih, List.append_assoc]

theorem aggRun_below {α : Type} (ops : List (AggOp α)) : ∀ s : AggState α,
    s.completed + completesOf ops < s.total →
    aggRun s ops =
      (⟨s.items ++ appendsOf ops, s.completed + completesOf ops, s.total⟩,
       List.replicate (completesOf ops) AggEvent.progress) := by
  induction ops with
  | nil => intro s h; simp [aggRun, appendsOf, completesOf]
  | cons op ops ih =>
    intro s h
    cases op with
    | append r =>
      simp only [completesOf, appendsOf] at *
      simp only [aggRun, aggStep]
      rw [ih ⟨s.items ++ [r], s.completed, s.total⟩ (by simpa using h)]
      simp [List.append_assoc]
    | complete =>
      simp only [completesOf, appendsOf] at *
      have hlt : s.completed + 1 < s.total := by omega
      simp only [aggRun, aggStep, if_pos hlt]
      rw [ih ⟨s.items, s.completed + 1, s.total⟩ (by simp; omega)]
      simp [List.replicate_succ]
      omega

theorem aggRun_batch {α : Type} (N : Nat) (hN : 1 ≤ N) (ops₁ : List (AggOp α))
    (hc : completesOf ops₁ = N - 1) :
    aggRun (aggInit N) (ops₁ ++ [AggOp.complete]) =
      (aggInit N,
       List.replicate (N - 1) AggEvent.progress ++
         [match appendsOf ops₁ with
          | [] => AggEvent.noItems
          | its => AggEvent.report its]) := by
  rw [aggRun_append_list]
  rw [aggRun_below ops₁ (aggInit N) (by simp [aggInit, hc]; omega)]
  simp only [aggInit, hc]
  have hnot : ¬ (N - 1 + 1 < N) := by omega
  simp only [aggRun, aggStep, if_neg hnot]
  cases appendsOf ops₁ <;> simp [hnot]

theorem completesOf_append {α : Type} (l₁ l₂ : List (AggOp α)) :
    completesOf (l₁ ++ l₂) = completesOf l₁ + completesOf l₂ := by
  induction l₁ with
  | nil => simp [completesOf]
  | cons op ops ih => cases op <;> simp [completesOf, ih] <;> omega

theorem appendsOf_append {α : Type} (l₁ l₂ : List (AggOp α)) :
    appendsOf (l₁ ++ l₂) = appendsOf l₁ ++ appendsOf l₂ := by
  induction l₁ with
  | nil => simp [appendsOf]
  | cons op ops ih => cases op <;> simp [appendsOf, ih]

theorem appendsOf_length {α : Type} (l : List (AggOp α)) :
    (appendsOf l).length = appendCount l := by
  induction l with
  | nil => simp [appendsOf, appendCount]
  | cons op ops ih => cases op <;> simp [appendsOf, appendCount, ih]

theorem finalizeCount_append {α : Type} (l₁ l₂ : List (AggEvent α)) :
    finalizeCount (l₁ ++ l₂) = finalizeCount l₁ + finalizeCount l₂ := by
  induction l₁ with
  | nil => simp [finalizeCount]
  | cons e es ih => cases e <;> simp [finalizeCount, ih] <;> omega

theorem finalizeCount_replicate_progress {α : Type} (n : Nat) :
    finalizeCount (List.replicate n (AggEvent.progress : AggEvent α)) = 0 := by
  induction n with
  | zero => simp [finalizeCount]
  | succ k ih => simp [List.replicate_succ, finalizeCount, ih]

theorem finalizedItems_append {α : Type} (l₁ l₂ : List (AggEvent α)) :
    finalizedItems (l₁ ++ l₂) = finalizedItems l₁ ++ finalizedItems l₂ := by
  induction l₁ with
  | nil => simp [finalizedItems]
  | cons e es ih => cases e <;> simp [finalizedItems, ih]

theorem finalizedItems_replicate_progress {α : Type} (n : Nat) :
    finalizedItems (List.replicate n (AggEvent.progress : AggEvent α)) = [] := by
  induction n with
  | zero => simp [finalizedItems]
  | succ k ih => simp [List.replicate_succ, finalizedItems, ih]

theorem reportCount_append {α : Type} (l₁ l₂ : List (AggEvent α)) :
    reportCount (l₁ ++ l₂) = reportCount l₁ + reportCount l₂ := by
  induction l₁ with
  | nil => simp [reportCount]
  | cons e es ih => cases e <;> simp [reportCount, ih] <;> omega

theorem reportCount_replicate_progress {α : Type} (n : Nat) :
    reportCount (List.replicate n (AggEvent.progress : AggEvent α)) = 0 := by
  induction n with
  | zero => simp [reportCount]
  | succ k ih => simp [List.replicate_succ, reportCount, ih]

theorem noItemsCount_append {α : Type} (l₁ l₂ : List (AggEvent α)) :
    noItemsCount (l₁ ++ l₂) = noItemsCount l₁ + noItemsCount l₂ := by
  induction l₁ with
  | nil => simp [noItemsCount]
  | cons e es ih => cases e <;> simp [noItemsCount, ih] <;> omega

theorem noItemsCount_replicate_progress {α : Type} (n : Nat) :
    noItemsCount (List.replicate n (AggEvent.progress : AggEvent α)) = 0 := by
  induction n with
  | zero => simp [noItemsCount]
  | succ k ih => simp [List.replicate_succ, noItemsCount, ih]

theorem no_appends_all_complete {α : Type} (ops : List (AggOp α))
    (ha : appendCount ops = 0) :
    ops = List.replicate (completesOf ops) AggOp.complete := by
  induction ops with
  | nil => simp [completesOf]
  | cons op rest ih =>
    cases op with
    | append r => simp [appendCount] at ha
    | complete =>
      simp only [appendCount] at ha
      simp only [completesOf, List.replicate_succ]
      exact congrArg (fun l => AggOp.complete :: l) (ih ha)

theorem completesOf_replicate_complete {α : Type} (n : Nat) :
    completesOf (List.replicate n (AggOp.complete : AggOp α)) = n := by
  induction n with
  | zero => simp [completesOf]
  | succ k ih => simp [List.replicate_succ, completesOf, ih]

theorem appendsOf_replicate_complete {α : Type} (n : Nat) :
    appendsOf (List.replicate n (AggOp.complete : AggOp α)) = [] := by
  induction n with
  | zero => simp [appendsOf]
  | succ k ih => simp [List.replicate_succ, appendsOf, ih]

theorem aggRun_empty_batch {α : Type} (N : Nat) (hN : 1 ≤ N)
    (ops : List (AggOp α)) (hc : completesOf ops = N) (ha : appendCount ops = 0) :
    aggRun (aggInit N) ops =
      (aggInit N, List.replicate (N - 1) AggEvent.progress ++ [AggEvent.noItems]) := by
  have hshape := no_appends_all_complete ops ha
  rw [hc] at hshape
  subst hshape
  have hsplit : List.replicate N (AggOp.complete : AggOp α) =
      List.replicate (N - 1) AggOp.complete ++ [AggOp.complete] := by
    have : N = (N - 1) + 1 := by omega
    rw [this]
    simp [List.replicate_succ']
  rw [hsplit]
  rw [aggRun_batch N hN _ (completesOf_replicate_complete (N - 1))]
  rw [appendsOf_replicate_complete]

theorem appendCount_append {α : Type} (l₁ l₂ : List (AggOp α)) :
    appendCount (l₁ ++ l₂) = appendCount l₁ + appendCount l₂ := by
  induction l₁ with
  | nil => simp [appendCount]
  | cons op ops ih => cases op <;> simp [appendCount, ih] <;> omega

/-- C1: with a registered total of N (N at least 1) and a trace that ends at
its N-th completion signal, interleaved arbitrarily with appends, the
collector finalizes exactly once, the finalized record list is exactly the
list of appended records (its length equals the number of append calls),
and the shared state is reset to the registration state. -/
theorem aggregator_exactly_once_finalize {α : Type} (N : Nat) (hN : 1 ≤ N)
    (ops ops₁ : List (AggOp α)) (hops : ops = ops₁ ++ [AggOp.complete])
    (hc : completesOf ops₁ = N - 1) :
    completesOf ops = N ∧
    finalizeCount (aggRun (aggInit N) ops).2 = 1 ∧
    finalizedItems (aggRun (aggInit N) ops).2 = appendsOf ops ∧
    (finalizedItems (aggRun (aggInit N) ops).2).length = appendCount ops ∧
    (aggRun (aggInit N) ops).1 = aggInit N := by
  subst hops
  rw [aggRun_batch N hN ops₁ hc]
  have happ : appendsOf (ops₁ ++ [AggOp.complete]) = appendsOf ops₁ := by
    rw [appendsOf_append]; simp [appendsOf]
  refine ⟨?_, ?_, ?_, ?_, rfl⟩
  · rw [completesOf_append, hc]; simp [completesOf]; omega
  · rw [finalizeCount_append, finalizeCount_replicate_progress]
    cases appendsOf ops₁ <;> simp [finalizeCount]
  · rw [finalizedItems_append, finalizedItems_replicate_progress, happ]
    cases appendsOf ops₁ <;> simp [finalizedItems]
  · rw [finalizedItems_append, finalizedItems_replicate_progress]
    have h2 : appendCount (ops₁ ++ [AggOp.complete]) = appendCount ops₁ := by
      rw [appendCount_append]; simp [appendCount]
    rw [h2, ← appendsOf_length ops₁]
    cases appendsOf ops₁ <;> simp [finalizedItems]

theorem agg_once_witness :
    (1 : Nat) ≤ 2 ∧
    completesOf [AggOp.append (1 : Nat), AggOp.complete, AggOp.append 2] = 2 - 1 ∧
    (completesOf [AggOp.append (1 : Nat), AggOp.complete, AggOp.append 2, AggOp.complete] = 2 ∧
     finalizeCount (aggRun (aggInit 2) [AggOp.append (1 : Nat), AggOp.complete, AggOp.append 2, AggOp.complete]).2 = 1 ∧
     finalizedItems (aggRun (aggInit 2) [AggOp.append (1 : Nat), AggOp.complete, AggOp.append 2, AggOp.complete]).2 =
       appendsOf [AggOp.append (1 : Nat), AggOp.complete, AggOp.append 2, AggOp.complete] ∧
     (finalizedItems (aggRun (aggInit 2) [AggOp.append (1 : Nat), AggOp.complete, AggOp.append 2, AggOp.complete]).2).length =
       appendCount [AggOp.append (1 : Nat), AggOp.complete, AggOp.append 2, AggOp.complete] ∧
     (aggRun (aggInit 2) [AggOp.append (1 : Nat), AggOp.complete, AggOp.append 2, AggOp.complete]).1 = aggInit 2) :=
  ⟨by decide, by decide,
   aggregator_exactly_once_finalize 2 (by decide) _
     [AggOp.append 1, AggOp.complete, AggOp.append 2] rfl (by decide)⟩

/-- C7 counterexample: with a registered total of 1, a completion signal in
excess of the registered total and a record appended after finalize are
absorbed silently: the run emits a second, ordinary report handoff
containing the post-finalize record, and no event of any other kind.  The
event type enumerates every effect `close_spider` can produce, and it has
no violation report: the claimed detection does not exist in the code. -/
theorem agg_violations_absorbed_silently :
    aggRun (aggInit 1) [AggOp.append (1 : Nat), AggOp.complete, AggOp.append 2, AggOp.complete] =
      (aggInit 1, [AggEvent.report [1], AggEvent.report [2]]) := by decide

/-- C7 amended: the collector does not detect protocol violations; because
finalize resets the shared state to the registration state, any operations
arriving after a finished batch (extra completion signals, post-finalize
appends) are processed exactly as a fresh batch started from registration,
with no violation reported. -/
theorem agg_post_finalize_ops_start_fresh_batch {α : Type} (N : Nat) (hN : 1 ≤ N)
    (ops ops₁ : List (AggOp α)) (hops : ops = ops₁ ++ [AggOp.complete])
    (hc : completesOf ops₁ = N - 1) (extra : List (AggOp α)) :
    aggRun (aggInit N) (ops ++ extra) =
      ((aggRun (aggInit N) extra).1,
       (aggRun (aggInit N) ops).2 ++ (aggRun (aggInit N) extra).2) := by
  subst hops
  rw [aggRun_append_list]
  rw [aggRun_batch N hN ops₁ hc]

/-- C8: a batch whose trace contains no append and exactly the registered
number of completion signals produces no report handoff (no output
payload) and exactly one no-items diagnostic note. -/
theorem agg_empty_batch_no_output {α : Type} (N : Nat) (hN : 1 ≤ N)
    (ops : List (AggOp α)) (hc : completesOf ops = N) (ha : appendCount ops = 0) :
    reportCount (aggRun (aggInit N) ops).2 = 0 ∧
    noItemsCount (aggRun (aggInit N) ops).2 = 1 := by
  rw [aggRun_empty_batch N hN ops hc ha]
  constructor
  · rw [reportCount_append, reportCount_replicate_progress]; simp [reportCount]
  · rw [noItemsCount_append, noItemsCount_replicate_progress]; simp [noItemsCount]

/-- C10: even when zero records were appended, finalize resets the shared
state (record list and counter) to the registration state — the reset
precedes the empty-batch check — and emits only progress notes plus the
single no-items note. -/
theorem agg_reset_even_when_empty {α : Type} (N : Nat) (hN : 1 ≤ N)
    (ops : List (AggOp α)) (hc : completesOf ops = N) (ha : appendCount ops = 0) :
    (aggRun (aggInit N) ops).1 = aggInit N ∧
    (aggRun (aggInit N) ops).2 =
      List.replicate (N - 1) AggEvent.progress ++ [AggEvent.noItems] := by
  rw [aggRun_empty_batch N hN ops hc ha]
  exact ⟨rfl, rfl⟩

theorem agg_empty_witness :
    (1 : Nat) ≤ 2 ∧
    completesOf ([AggOp.complete, AggOp.complete] : List (AggOp Nat)) = 2 ∧
    appendCount ([AggOp.complete, AggOp.complete] : List (AggOp Nat)) = 0 ∧
    (reportCount (aggRun (aggInit 2) ([AggOp.complete, AggOp.complete] : List (AggOp Nat))).2 = 0 ∧
     noItemsCount (aggRun (aggInit 2) ([AggOp.complete, AggOp.complete] : List (AggOp Nat))).2 = 1) :=
  ⟨by decide, by decide, by decide,
   agg_empty_batch_no_output 2 (by decide) [AggOp.complete, AggOp.complete] (by decide) (by decide)⟩

theorem agg_reset_witness :
    (1 : Nat) ≤ 1 ∧
    completesOf ([AggOp.complete] : List (AggOp Nat)) = 1 ∧
    appendCount ([AggOp.complete] : List (AggOp Nat)) = 0 ∧
    ((aggRun (aggInit 1) ([AggOp.complete] : List (AggOp Nat))).1 = aggInit 1 ∧
     (aggRun (aggInit 1) ([AggOp.complete] : List (AggOp Nat))).2 =
       List.replicate 0 AggEvent.progress ++ [AggEvent.noItems]) :=
  ⟨by decide, by decide, by decide,
   agg_reset_even_when_empty 1 (by decide) [AggOp.complete] (by decide) (by decide)⟩

theorem agg_fresh_witness :
    (1 : Nat) ≤ 1 ∧
    ([AggOp.complete] : List (AggOp Nat)) = [] ++ [AggOp.complete] ∧
    completesOf ([] : List (AggOp Nat)) = 0 ∧
    aggRun (aggInit 1) (([AggOp.complete] : List (AggOp Nat)) ++ [AggOp.append 5, AggOp.complete]) =
      ((aggRun (aggInit 1) [AggOp.append (5 : Nat), AggOp.complete]).1,
       (aggRun (aggInit 1) ([AggOp.complete] : List (AggOp Nat))).2 ++
         (aggRun (aggInit 1) [AggOp.append (5 : Nat), AggOp.complete]).2) :=
  ⟨by decide, by decide, by decide,
   agg_post_finalize_ops_start_fresh_batch 1 (by decide) [AggOp.complete] [] rfl (by decide)
     [AggOp.append 5, AggOp.complete]⟩

/-- C2 amended: the serializer orders every finalized record set by the
key (total-price-is-absent, total-price-or-zero) ascending — records
without a total price sort last — and the output is a permutation of the
input.  It does not sort by VIN and does not sort nested lists. -/
theorem report_sorted_by_price (items : List ReportItem) :
    List.Sorted reportLE (sortReport items) ∧
    List.Perm (sortReport items) items :=
  ⟨List.sorted_insertionSort reportLE items, List.perm_insertionSort reportLE items⟩

/-- C2 counterexample: a two-record set whose VIN order disagrees with its
total-price order is emitted in total-price order, so the emitted sequence
is not sorted by VIN ascending as claimed. -/
theorem report_not_sorted_by_vin :
    sortReport [ReportItem.mk (some "AAA") (some 200) [],
                ReportItem.mk (some "BBB") (some 100) []] =
      [ReportItem.mk (some "BBB") (some 100) [],
       ReportItem.mk (some "AAA") (some 200) []] ∧
    spec_vin_sorted (sortReport [ReportItem.mk (some "AAA") (some 200) [],
                                 ReportItem.mk (some "BBB") (some 100) []]) = false ∧
    spec_vin_sorted [ReportItem.mk (some "AAA") (some 200) [],
                     ReportItem.mk (some "BBB") (some 100) []] = true := by
  refine ⟨by decide, ?_, by decide⟩
  decide

/-- The code-side package sum (absent prices replaced by 0) equals the
spec-side sum over present prices. -/
theorem sumPkgPrices_eq_spec (pkgs : List PkgEntry) :
    sumPkgPrices pkgs = spec_presentPriceSum pkgs := by
  induction pkgs with
  | nil => simp [sumPkgPrices, spec_presentPriceSum]
  | cons p ps ih =>
    simp only [sumPkgPrices, spec_presentPriceSum, List.map_cons, List.sum_cons] at *
    cases h : parse_price p.price with
    | none => simp [h, List.filterMap_cons, ih]
    | some n => simp [h, List.filterMap_cons, ih]

/-- C4: total_packages_price equals the sum of the present package prices
over the factory-package list, and the field is absent exactly when that
sum is zero. -/
theorem total_packages_price_correct (pkgs : List PkgEntry) :
    total_packages_price pkgs =
      (if spec_presentPriceSum pkgs = 0 then none else some (spec_presentPriceSum pkgs)) ∧
    (total_packages_price pkgs = none ↔ spec_presentPriceSum pkgs = 0) := by
  rw [total_packages_price, sumPkgPrices_eq_spec]
  constructor
  · rfl
  · split <;> simp_all

/-- C5 (code bug): the raw package named exactly like the excluded-set
member "50 state emissions" is NOT discarded — it is retained as a
factory package — because the code tests the UPPERCASED name
("50 STATE EMISSIONS") for membership in a lowercase set, which can
never match; the properly lowercased normalized name would have matched. -/
theorem excluded_package_retained :
    dealeron_classify [("50 state emissions", "")] =
      ([PkgEntry.mk "50 state emissions" none], []) ∧
    pyUpper (pyStrip "50 state emissions") = "50 STATE EMISSIONS" ∧
    EXCLUDED_PACKAGES.contains (pyUpper (pyStrip "50 state emissions")) = false ∧
    EXCLUDED_PACKAGES.contains "50 state emissions" = true ∧
    pyLower (normalize_pkg_name "50 state emissions") = "50 state emissions" := by
  refine ⟨by decide, by decide, by decide, by decide, by decide⟩

theorem dropWhile_head_not {p : Char → Bool} :
    ∀ (l : List Char) (c : Char), (l.dropWhile p).head? = some c → p c = false := by
  intro l
  induction l with
  | nil => intro c h; simp [List.dropWhile] at h
  | cons a t ih =>
    intro c h
    by_cases hp : p a
    · rw [List.dropWhile_cons_of_pos hp] at h
      exact ih c h
    · rw [List.dropWhile_cons_of_neg hp] at h
      simp at h
      subst h
      simpa using hp

/-- C6 counterexample: a name ending in two periods loses both of them,
not just one — `rstrip(".")` removes every trailing period. -/
theorem normalize_double_period :
    normalize_pkg_name "Pkg.." = "Pkg" ∧ normalize_pkg_name "Pkg.." ≠ "Pkg." := by
  refine ⟨by decide, by decide⟩

/-- C6 amended: the name normalizer removes surrounding whitespace and
every trailing period: its result never ends in a period. -/
theorem normalize_strips_every_trailing_period (s : String) :
    endsInPeriod (normalize_pkg_name s) = false := by
  unfold normalize_pkg_name endsInPeriod rstripAll
  simp only [List.getLast?_reverse]
  cases h : (((pyStrip s).data.reverse).dropWhile (fun x => x == '.')).head? with
  | none => simp [h]
  | some c =>
    have := dropWhile_head_not _ c h
    simp [h, this]

/-- C3 counterexample: a dealercom record with msrp 100, total price 90
and a dealer-accessory total of 10 gets adjustments -10 (total minus
msrp, accessories not subtracted), not the claimed
total minus msrp minus accessories = -20. -/
theorem dealercom_adjustments_differ_from_formula :
    dealercom_dealer_accessories none [PkgEntry.mk "Mudguards" (some "$10")] = some 10 ∧
    dealercom_adjustments none false (some 100) (some 90) = some (-10) ∧
    ((90 : Int) - 100 - 10 = -20) ∧ (-10 : Int) ≠ -20 := by
  refine ⟨by decide, by decide, by decide, by decide⟩

/-- C3 amended: dealeron computes adjustments as total_price - msrp -
dealer-accessory total, only when both msrp and total price are present
(nonzero) and differ, storing a zero result as absent; dealercom instead
records only discounts — an explicit discount entry as its negation,
otherwise total_price - msrp only when total_price is below msrp, without
subtracting dealer accessories. -/
theorem adjustments_formulas :
    (∀ m t acc : Nat, 0 < m → 0 < t → t ≠ m →
      dealeron_adjustments (some m) (some t) acc =
        (if (t : Int) - m - acc = 0 then none else some ((t : Int) - m - acc))) ∧
    (∀ (m : Nat) (acc : Nat), dealeron_adjustments (some m) (some m) acc = none) ∧
    (∀ (tp : Option Nat) (acc : Nat), dealeron_adjustments none tp acc = none) ∧
    (∀ (m : Nat) (acc : Nat), dealeron_adjustments (some m) none acc = none) ∧
    (∀ m t : Nat, 0 < m → 0 < t → t < m →
      dealercom_adjustments none false (some m) (some t) = some ((t : Int) - m)) ∧
    (∀ m t : Nat, m ≤ t → dealercom_adjustments none false (some m) (some t) = none) ∧
    (∀ v : Nat, 0 < v → ∀ m tp : Option Nat,
      dealercom_adjustments (some v) true m tp = some (-(v : Int))) := by
  refine ⟨?_, ?_, ?_, ?_, ?_, ?_, ?_⟩
  · intro m t acc hm ht hne
    simp only [dealeron_adjustments]
    rw [if_pos ⟨by omega, by omega, hne⟩]
  · intro m acc; simp [dealeron_adjustments]
  · intro tp acc; cases tp <;> simp [dealeron_adjustments]
  · intro m acc; simp [dealeron_adjustments]
  · intro m t hm ht hlt
    have h1 : m ≠ 0 ∧ t ≠ 0 ∧ t < m := ⟨by omega, by omega, hlt⟩
    simp [dealercom_adjustments, pyTruthy, h1]
  · intro m t hle
    have h1 : ¬ (m ≠ 0 ∧ t ≠ 0 ∧ t < m) := by omega
    simp [dealercom_adjustments, pyTruthy, h1]
  · intro v hv m tp
    have hv2 : v ≠ 0 := by omega
    simp [dealercom_adjustments, pyTruthy, hv2]

theorem adjustments_formulas_witness :
    (0 < 100 ∧ 0 < 90 ∧ (90 : Nat) ≠ 100) ∧
    dealeron_adjustments (some 100) (some 90) 10 =
      (if (90 : Int) - 100 - 10 = 0 then none else some ((90 : Int) - 100 - 10)) :=
  ⟨by decide,
   adjustments_formulas.1 100 90 10 (by decide) (by decide) (by decide)⟩

/-- C9 counterexample: a dealercom record whose advertised price could
not be extracted falls back to total_price = msrp, yet a Dealer
Adjustment discount entry still sets adjustments, so fallback records do
not always have adjustments absent. -/
theorem dealercom_fallback_can_have_adjustments :
    dealercom_total_price none none (some 30000) = some 30000 ∧
    dealercom_adjustments (some 500) true (some 30000)
      (dealercom_total_price none none (some 30000)) = some (-500) := by
  refine ⟨by decide, by decide⟩

theorem truthy_orElse_isSome (t : Option Nat) (m : Nat) :
    (if pyTruthy t then t else some m).isSome = true := by
  cases t with
  | none => simp [pyTruthy]
  | some n => by_cases h : n = 0 <;> simp [pyTruthy, h]

theorem truthy_orElse_isSome_int (t : Option Int) (m : Int) :
    (if pyTruthyInt t then t else some m).isSome = true := by
  cases t with
  | none => simp [pyTruthyInt]
  | some n => by_cases h : n = 0 <;> simp [pyTruthyInt, h]

/-- C9 amended: in all three cited spiders, when no advertised or
displayed price is extracted the total price falls back to msrp, and a
present msrp guarantees a present total price; fallback records have
adjustments absent in dealeron and dealervenom, and in dealercom only
when no discount entry is present (the counterexample shows a discount
entry overrides this). -/
theorem total_price_fallback_to_msrp :
    (∀ (stackRaw dataRaw : Option String) (msrp : Option Nat),
      parse_price stackRaw = none → parse_price dataRaw = none →
      dealeron_total_price stackRaw dataRaw msrp = msrp) ∧
    (∀ (stackRaw dataRaw : Option String) (m : Nat),
      (dealeron_total_price stackRaw dataRaw (some m)).isSome = true) ∧
    (∀ (stackRaw dataRaw : Option String) (msrp : Option Nat) (acc : Nat),
      parse_price stackRaw = none → parse_price dataRaw = none →
      dealeron_adjustments msrp (dealeron_total_price stackRaw dataRaw msrp) acc = none) ∧
    (∀ (d : Option Int) (buy : String) (msrp : Option Int),
      safe_int d = none → parse_price (some buy) = none →
      dealervenom_total_price d buy msrp = msrp) ∧
    (∀ (d : Option Int) (buy : String) (m : Int),
      (dealervenom_total_price d buy (some m)).isSome = true) ∧
    (∀ (d : Option Int) (buy : String) (msrp : Option Int),
      safe_int d = none → parse_price (some buy) = none →
      dealervenom_adjustments msrp (dealervenom_total_price d buy msrp) = none) ∧
    (∀ (adv jl msrp : Option Nat),
      pyTruthy adv = false → pyTruthy jl = false →
      dealercom_total_price adv jl msrp = msrp) ∧
    (∀ (adv jl : Option Nat) (m : Nat),
      (dealercom_total_price adv jl (some m)).isSome = true) ∧
    (∀ (adv jl msrp : Option Nat),
      pyTruthy adv = false → pyTruthy jl = false →
      dealercom_adjustments none false msrp (dealercom_total_price adv jl msrp) = none) := by
  have hden : ∀ (stackRaw dataRaw : Option String) (msrp : Option Nat),
      parse_price stackRaw = none → parse_price dataRaw = none →
      dealeron_total_price stackRaw dataRaw msrp = msrp := by
    intro st da msrp h1 h2
    simp [dealeron_total_price, h1, h2, pyTruthy]
  have hven : ∀ (d : Option Int) (buy : String) (msrp : Option Int),
      safe_int d = none → parse_price (some buy) = none →
      dealervenom_total_price d buy msrp = msrp := by
    intro d buy msrp h1 h2
    simp [dealervenom_total_price, dealervenom_displayed_price, h1, h2, pyTruthyInt]
  have hcom : ∀ (adv jl msrp : Option Nat),
      pyTruthy adv = false → pyTruthy jl = false →
      dealercom_total_price adv jl msrp = msrp := by
    intro adv jl msrp h1 h2
    simp [dealercom_total_price, h1, h2]
  refine ⟨hden, ?_, ?_, hven, ?_, ?_, hcom, ?_, ?_⟩
  · intro st da m
    exact truthy_orElse_isSome _ m
  · intro st da msrp acc h1 h2
    rw [hden st da msrp h1 h2]
    cases msrp with
    | none => simp [dealeron_adjustments]
    | some m => simp [dealeron_adjustments]
  · intro d buy m
    exact truthy_orElse_isSome_int _ m
  · intro d buy msrp h1 h2
    rw [hven d buy msrp h1 h2]
    cases msrp with
    | none => simp [dealervenom_adjustments]
    | some m => simp [dealervenom_adjustments]
  · intro adv jl m
    exact truthy_orElse_isSome _ m
  · intro adv jl msrp h1 h2
    rw [hcom adv jl msrp h1 h2]
    cases msrp with
    | none => simp [dealercom_adjustments, pyTruthy]
    | some m => simp [dealercom_adjustments, pyTruthy]

theorem total_price_fallback_witness :
    parse_price none = none ∧
    dealeron_total_price none none (some 48714) = some 48714 :=
  ⟨by decide, total_price_fallback_to_msrp.1 none none (some 48714) (by decide) (by decide)⟩


/-- Witness for the C2 amended theorem at a concrete record list. -/
theorem report_sorted_by_price_witness :
    List.Sorted reportLE (sortReport [ReportItem.mk (some "AAA") (some 200) [],
                                      ReportItem.mk (some "BBB") (some 100) []]) ∧
    List.Perm (sortReport [ReportItem.mk (some "AAA") (some 200) [],
                           ReportItem.mk (some "BBB") (some 100) []])
      [ReportItem.mk (some "AAA") (some 200) [],
       ReportItem.mk (some "BBB") (some 100) []] :=
  report_sorted_by_price [ReportItem.mk (some "AAA") (some 200) [],
                          ReportItem.mk (some "BBB") (some 100) []]

/-- Witness for the C4 theorem at a concrete package list. -/
theorem total_packages_price_correct_witness :
    total_packages_price [PkgEntry.mk "Weather" (some "$375")] =
      (if spec_presentPriceSum [PkgEntry.mk "Weather" (some "$375")] = 0 then none
       else some (spec_presentPriceSum [PkgEntry.mk "Weather" (some "$375")])) ∧
    (total_packages_price [PkgEntry.mk "Weather" (some "$375")] = none ↔
      spec_presentPriceSum [PkgEntry.mk "Weather" (some "$375")] = 0) :=
  total_packages_price_correct [PkgEntry.mk "Weather" (some "$375")]

/-- Witness for the C6 amended theorem at a concrete name. -/
theorem normalize_strips_witness :
    endsInPeriod (normalize_pkg_name "Pkg..") = false :=
  normalize_strips_every_trailing_period "Pkg.."
